import Mathlib

/-!
Verification of the grid/sequence utility library (src/tools.py) against its
specification.  The Python code is shallowly embedded: Python strings are
lists of characters (`Str`), raised exceptions are the `Except.error`
constructor of `Except PyErr`, and values returned normally are `Except.ok`.
All definitions mirror the source line by line; deviations forced by the
embedding are noted in comments at the definition they concern.
-/

/-- A Python `str` value, modelled as its sequence of characters. -/
abbrev Str := List Char

instance {ε α : Type} [DecidableEq ε] [DecidableEq α] :
    DecidableEq (Except ε α) := fun a b =>
  match a, b with
  | .error x, .error y =>
    if h : x = y then .isTrue (congrArg Except.error h)
    else .isFalse (fun hc => h (Except.error.inj hc))
  | .ok x, .ok y =>
    if h : x = y then .isTrue (congrArg Except.ok h)
    else .isFalse (fun hc => h (Except.ok.inj hc))
  | .error _, .ok _ => .isFalse (fun hc => Except.noConfusion hc)
  | .ok _, .error _ => .isFalse (fun hc => Except.noConfusion hc)

/-- The kinds of exception the modelled code can raise. -/
inductive PyErr where
  | indexError
  | typeError
  | valueError
  | keyError
  deriving DecidableEq, Repr

/-- Core of `str.splitlines`: split a character list at every line break,
keeping a (possibly empty) final fragment.  The breaks recognised are
`\n`, `\r` and the two-character sequence `\r\n` (Python additionally
recognises some rare control and Unicode boundary characters, which never
occur in grid text). -/
def splitOnNl : List Char → List (List Char)
  | [] => [[]]
  | '\r' :: '\n' :: rest => [] :: splitOnNl rest
  | '\r' :: rest => [] :: splitOnNl rest
  | '\n' :: rest => [] :: splitOnNl rest
  | c :: rest =>
    match splitOnNl rest with
    | [] => [[]]
    | row :: rows => (c :: row) :: rows

/-- Python `str.splitlines`: like `splitOnNl`, but the fragment after a
terminating line break (and the single fragment of the empty string) is
dropped, exactly as in Python. -/
def splitlines (s : Str) : List (List Char) :=
  let r := splitOnNl s
  if r.getLast? = some [] then r.dropLast else r

/-- Python `"\n".join(...)` over a list of rows. -/
def joinNl : List (List Char) → List Char
  | [] => []
  | [r] => r
  | r :: rows => r ++ '\n' :: joinNl rows

/-- Python sequence index normalisation: a non-negative index must be below
the length, a negative index `i` counts from the end provided `-i` does not
exceed the length; anything else is an `IndexError` (`none`). -/
def normIdx (len : Nat) (i : Int) : Option Nat :=
  if 0 ≤ i then
    if i < (len : Int) then some i.toNat else none
  else
    if -i ≤ (len : Int) then some (len - (-i).toNat) else none

/-- Python subscript read `l[i]`, with negative-index wraparound;
`none` models a raised `IndexError`. -/
def pyIdx {α : Type} (l : List α) (i : Int) : Option α :=
  (normIdx l.length i).bind (fun k => l.get? k)

/-- Python subscript write `l[i] = a` on a list, with negative-index
wraparound; `none` models a raised `IndexError`. -/
def pySet {α : Type} (l : List α) (i : Int) (a : α) : Option (List α) :=
  (normIdx l.length i).map (fun k => l.set k a)

/-- Python nested subscript write `ll[i][j] = a`: read row `i`, write
position `j` of that row in place.  In the embedding the updated outer list
is returned; `none` models a raised `IndexError` from either subscript. -/
def pySet2 {α : Type} (ll : List (List α)) (i j : Int) (a : α) :
    Option (List (List α)) :=
  match normIdx ll.length i with
  | none => none
  | some k =>
    match ll.get? k with
    | none => none
    | some row => (pySet row j a).map (fun row2 => ll.set k row2)

/-- Python `class StringGrid`: a grid stored as newline-separated text.  `width`
and `height` are derived from the text exactly as `__init__` derives them,
and the text is never reassigned, so they are modelled as functions of the
stored text. -/
structure StringGrid where
  grid : Str
  deriving DecidableEq, Repr

/-- The width `len(self.grid.splitlines()[0])`.  On text with no lines (the empty
string) Python's `__init__` raises, so such a `StringGrid` is never
constructed; the embedding gives that vacuous case width 0. -/
def StringGrid.width (g : StringGrid) : Nat :=
  ((splitlines g.grid).headD []).length

/-- The height `len(self.grid.splitlines())`. -/
def StringGrid.height (g : StringGrid) : Nat :=
  (splitlines g.grid).length

/-- Method `StringGrid.grab`: `self.grid.splitlines()[y][x]`, with Python
subscript semantics (negative wraparound, `IndexError` as `none`). -/
def StringGrid.grab (g : StringGrid) (x y : Int) : Option Char :=
  (pyIdx (splitlines g.grid) y).bind (fun row => pyIdx row x)

/-- Inner loop of `find_grid_item`: `for x2 in range(x.width)` for a fixed
row `y`; the list argument is the remaining column indices.  A failing
`grab` (possible on ragged grids) propagates as an `IndexError`. -/
def scanRow (g : StringGrid) (item : Char) (y : Nat) :
    List Nat → Except PyErr (Option (Nat × Nat))
  | [] => .ok none
  | x2 :: rest =>
    match g.grab (x2 : Int) (y : Int) with
    | none => .error .indexError
    | some c => if c = item then .ok (some (x2, y)) else scanRow g item y rest

/-- Outer loop of `find_grid_item`: `for y in range(x.height)`. -/
def scanRows (g : StringGrid) (item : Char) :
    List Nat → Except PyErr (Option (Nat × Nat))
  | [] => .ok none
  | y :: rest =>
    match scanRow g item y (List.range g.width) with
    | .error e => .error e
    | .ok (some p) => .ok (some p)
    | .ok none => scanRows g item rest

/-- Function `find_grid_item`: row-major scan for the first cell holding `item`;
`ok none` is the Python `None` (not-found) return.  The searched character
is modelled as a `Char` (the cells compared against it are single
characters, so a multi-character search string can never match). -/
def find_grid_item (g : StringGrid) (item : Char) :
    Except PyErr (Option (Nat × Nat)) :=
  scanRows g item (List.range g.height)

/-- Function `bounds`: the f-string `f"{x.width}x{x.height}"`. -/
def bounds (g : StringGrid) : Str :=
  (Nat.toDigits 10 g.width) ++ 'x' :: (Nat.toDigits 10 g.height)

/-- The `"OOB"` sentinel string returned by `swipe` and `look`. -/
def oobStr : Str := ['O', 'O', 'B']

/-- ASCII lowering of one character, as `str.lower` acts on the direction
strings used here. -/
def pyCharLower (c : Char) : Char :=
  if 'A' ≤ c ∧ c ≤ 'Z' then Char.ofNat (c.toNat + 32) else c

/-- Python `direction.lower()`. -/
def pyLower (s : Str) : Str := s.map pyCharLower

/-- The displacement block of `swipe`: the dict
`directs = {"left": -1, "right": 1, "up": -1, "down": 1}` together with
`dx = directs[direction]` when the direction is `left`/`right` and
`dy = directs[direction]` otherwise.  A direction that is not a key of the
dict reaches `directs[direction]` in the `else` branch and raises
`KeyError`. -/
def swipeDelta (d : Str) : Except PyErr (Int × Int) :=
  if d = "left".data then .ok (-1, 0)
  else if d = "right".data then .ok (1, 0)
  else if d = "up".data then .ok (0, -1)
  else if d = "down".data then .ok (0, 1)
  else .error .keyError

/-- Function `swipe`: move `character` one step.  Faithful points of the source:
`w, h = map(int, bounds(x).split("x"))` recovers exactly `x.width` and
`x.height` (the f-string round-trip is the identity), so the dimensions
are used directly, and the locals `rx`, `new_x`, `new_y` are inlined at
their use sites; `item = find_grid_item(...)` is bound before the displacement
block, so an unknown direction raises `KeyError` before `item[0]` can
raise `TypeError` on a `None` item; `new_x = item[0] + dy` adds the row
displacement to the located column and `new_y = item[1] + dx` adds the
column displacement to the located row (the axis swap present in the
source); `rx[new_x][new_y]` then indexes row `new_x`, column `new_y`.
The function is pure: `rx` is a fresh list of lists and `x.grid` is never
written. -/
def swipe (g : StringGrid) (character : Char) (direction : Str)
    (blankness : Char := '.') : Except PyErr Str :=
  match find_grid_item g character with
  | .error e => .error e
  | .ok itemOpt =>
    match swipeDelta (pyLower direction) with
    | .error e => .error e
    | .ok (dx, dy) =>
      match itemOpt with
      | none => .error .typeError
      | some item =>
        if (item.1 : Int) + dy < 0 ∨ (g.height : Int) ≤ (item.1 : Int) + dy ∨
            (item.2 : Int) + dx < 0 ∨ (g.width : Int) ≤ (item.2 : Int) + dx then
          .ok oobStr
        else
          match pySet2 (splitlines g.grid) ((item.1 : Int) + dy)
              ((item.2 : Int) + dx) character with
          | none => .error .indexError
          | some rx1 =>
            match pySet2 rx1 (item.1 : Int) (item.2 : Int) blankness with
            | none => .error .indexError
            | some rx2 => .ok (joinNl rx2)

/-- One letter of the `look` path: `U`/`D` move the row (`ch[1]`),
`L`/`R` move the column (`ch[0]`); any other letter raises
`ValueError("USE UDLR!")`. -/
def lookStep (letter : Char) (p : Int × Int) : Except PyErr (Int × Int) :=
  if letter = 'U' then .ok (p.1, p.2 - 1)
  else if letter = 'D' then .ok (p.1, p.2 + 1)
  else if letter = 'L' then .ok (p.1 - 1, p.2)
  else if letter = 'R' then .ok (p.1 + 1, p.2)
  else .error .valueError

/-- The `for letter in lookwhere` loop of `look`: no bounds check is made
while walking, so intermediate positions may be arbitrary integers. -/
def lookWalk (p : Int × Int) : Str → Except PyErr (Int × Int)
  | [] => .ok p
  | letter :: rest =>
    match lookStep letter p with
    | .error e => .error e
    | .ok q => lookWalk q rest

/-- Function `look`: locate `character` (`list(None)` raises `TypeError` when it is
absent, before the path is processed), walk the path, then apply the
inclusive bounds check `ch[0] < 0 or ch[0] > x.width or ch[1] < 0 or
ch[1] > x.height` and either return `"OOB"` or the result of
`x.grab(ch[0], ch[1])` (which itself may raise). -/
def look (g : StringGrid) (character : Char) (lookwhere : Str) :
    Except PyErr Str :=
  match find_grid_item g character with
  | .error e => .error e
  | .ok none => .error .typeError
  | .ok (some start) =>
    match lookWalk ((start.1 : Int), (start.2 : Int)) lookwhere with
    | .error e => .error e
    | .ok ch =>
      if ch.1 < 0 ∨ (g.width : Int) < ch.1 ∨ ch.2 < 0 ∨ (g.height : Int) < ch.2 then
        .ok oobStr
      else
        match g.grab ch.1 ch.2 with
        | none => .error .indexError
        | some c => .ok [c]

/-- A dynamically typed Python value, for the sequence helpers: the value
kinds that occur as sequence elements and mask flags here. -/
inductive PyVal where
  | int (n : Int)
  | bool (b : Bool)
  | str (s : Str)
  deriving DecidableEq, Repr

/-- The sequence argument of `select`: either a string or a list.  (A
tuple argument would raise `TypeError` at the in-place `p[index] = ...`
write as soon as any element is selected; no claim concerns tuples.) -/
inductive PySeq where
  | str (s : Str)
  | list (l : List PyVal)
  deriving DecidableEq, Repr

/-- Python `len` of a sequence. -/
def pyLen : PySeq → Nat
  | .str s => s.length
  | .list l => l.length

/-- The elements obtained by iterating a sequence: iterating a string
yields its characters as one-character strings. -/
def pyElems : PySeq → List PyVal
  | .str s => s.map (fun c => PyVal.str [c])
  | .list l => l

/-- Value of a string of decimal digits, `none` if empty or non-digit. -/
def digitsVal (l : List Char) : Option Nat :=
  if l ≠ [] ∧ l.all Char.isDigit then
    some (l.foldl (fun a c => a * 10 + (c.toNat - 48)) 0)
  else none

/-- Python `int(item)`: identity on ints, 0/1 on bools, decimal parse on
strings (`ValueError` on failure; the optional sign/whitespace trimming of
Python's parser is not needed by any flag value appearing here). -/
def pyIntConv : PyVal → Except PyErr Int
  | .int n => .ok n
  | .bool b => .ok (if b then 1 else 0)
  | .str ('-' :: rest) =>
    match digitsVal rest with
    | some n => .ok (-(n : Int))
    | none => .error .valueError
  | .str s =>
    match digitsVal s with
    | some n => .ok n
    | none => .error .valueError

/-- Python `str(item)` for the modelled value kinds. -/
def pyStrConv : PyVal → Str
  | .str s => s
  | .int n => if n < 0 then '-' :: Nat.toDigits 10 (-n).toNat else Nat.toDigits 10 n.toNat
  | .bool b => if b then "True".data else "False".data

/-- Python `item >= 1` on a mask entry.  After the conversion loop every
entry is an int; comparing a leftover string against 1 would raise
`TypeError`. -/
def pyGE1 : PyVal → Except PyErr Bool
  | .int n => .ok (decide (1 ≤ n))
  | .bool b => .ok b
  | .str _ => .error .typeError

/-- The first loop of `select`:
`for index, item in enumerate(matches): matches[index] = int(item)`.
The list is mutated in place entry by entry, so when `int` raises midway
the entries already converted keep their new values; the returned list is
the state of `matches` after the loop (or at the raise). -/
def convertAll : List PyVal → List PyVal × Except PyErr Unit
  | [] => ([], .ok ())
  | v :: vs =>
    match pyIntConv v with
    | .error e => (v :: vs, .error e)
    | .ok n =>
      let r := convertAll vs
      (PyVal.int n :: r.1, r.2)

/-- The second loop of `select`:
`for index, item in enumerate(x): if matches[index] >= 1: p += str(item)`,
accumulating the string `p`.  The two lists are walked in lockstep (their
lengths are equal when this loop runs); a mask shorter than the sequence
would raise `IndexError` at `matches[index]`. -/
def buildP : List PyVal → List PyVal → Except PyErr Str
  | [], _ => .ok []
  | _ :: _, [] => .error .indexError
  | v :: vs, m :: ms =>
    match pyGE1 m with
    | .error e => .error e
    | .ok b =>
      match buildP vs ms with
      | .error e => .error e
      | .ok rest => .ok (if b then pyStrConv v ++ rest else rest)

/-- What `select` hands back: a sequence, or the
`IndexError("Length of matches not length of x")` instance returned (not
raised) by the length-mismatch branch. -/
inductive SelectRet where
  | seq (s : PySeq)
  | exnVal (msg : Str)
  deriving DecidableEq, Repr

/-- Function `select`: the first component of the result is the caller's `matches`
list after the call (it is mutated in place by the conversion loop), the
second is the outcome.  For a list argument, `p = type(x)(p)` turns the
accumulated string into its list of one-character strings, and the final
loop `for index, item in enumerate(x[:len(p)]): p[index] = type(x[index])(item)`
overwrites `p[index]` with `x[index]` (converting a value to its own type
is the identity for the modelled kinds), leaving any excess characters of
`p` beyond `len(x)` in place — hence `xs.take pl.length ++ pl.drop xs.length`. -/
def select (x : PySeq) (matchesArg : List PyVal) :
    List PyVal × Except PyErr SelectRet :=
  if matchesArg.length = pyLen x then
    match convertAll matchesArg with
    | (m2, .error e) => (m2, .error e)
    | (m2, .ok _) =>
      match buildP (pyElems x) m2 with
      | .error e => (m2, .error e)
      | .ok p =>
        match x with
        | PySeq.str _ => (m2, .ok (SelectRet.seq (PySeq.str p)))
        | PySeq.list xs =>
          let pl := p.map (fun c => PyVal.str [c])
          (m2, .ok (SelectRet.seq (PySeq.list (xs.take pl.length ++ pl.drop xs.length))))
  else
    (matchesArg, .ok (SelectRet.exnVal "Length of matches not length of x".data))

/-- Modelled from the spec: `MaskSelect` on a string with integer flags,
per the spec's words "returns the subsequence of elements whose flag is
truthy" — a Python int is truthy exactly when it is nonzero, so a negative
flag keeps its element.  For comparison with the behaviour of `select`. -/
def maskSelectSpec : Str → List Int → Str
  | [], _ => []
  | _, [] => []
  | c :: cs, n :: ns =>
    if n ≠ 0 then c :: maskSelectSpec cs ns else maskSelectSpec cs ns

/-- The selection rule `select` actually implements on a string with
integer flags: keep the characters whose flag passes the code's
`matches[index] >= 1` test.  This drops a negative flag's element, which
the spec's truthy rule would keep. -/
def maskSelectGE1 : Str → List Int → Str
  | [], _ => []
  | _, [] => []
  | c :: cs, n :: ns =>
    if 1 ≤ n then c :: maskSelectGE1 cs ns else maskSelectGE1 cs ns

/-- Function `take_while`: the generator, fully consumed into a list; it stops at
the first element failing the condition and yields nothing afterwards. -/
def take_while {α : Type} (iterable : List α) (condition : α → Bool) :
    List α :=
  match iterable with
  | [] => []
  | item :: rest =>
    if condition item then item :: take_while rest condition else []

/-- No line-break character occurs in the row: true of every row produced
by `splitlines`. -/
def noBreak (r : List Char) : Prop := ∀ c ∈ r, c ≠ '\n' ∧ c ≠ '\r'

/-- The grid invariant of the data model: every row has the declared
width.  Behaviour on ragged text is undefined in the spec. -/
def Rect (g : StringGrid) : Prop :=
  ∀ r ∈ splitlines g.grid, r.length = g.width

instance (g : StringGrid) : Decidable (Rect g) :=
  inferInstanceAs (Decidable (∀ r ∈ splitlines g.grid, r.length = g.width))

/-! ### Lemmas about Python subscripting -/

theorem normIdx_some_lt {len : Nat} {i : Int} {k : Nat}
    (h : normIdx len i = some k) : k < len := by
  unfold normIdx at h
  split at h
  · split at h
    · cases h; omega
    · cases h
  · split at h
    · cases h; omega
    · cases h

theorem normIdx_natCast (len : Nat) (x : Nat) :
    normIdx len (x : Int) = if x < len then some x else none := by
  unfold normIdx
  rw [if_pos (by omega : (0 : Int) ≤ (x : Int))]
  split <;> split
  · simp only [Option.some.injEq]; omega
  · exfalso; omega
  · exfalso; omega
  · rfl

theorem pyIdx_natCast {α : Type} (l : List α) (x : Nat) :
    pyIdx l (x : Int) = l.get? x := by
  unfold pyIdx
  rw [normIdx_natCast]
  split
  · simp
  · exact (List.get?_eq_none.mpr (by omega)).symm

theorem pyIdx_toNat {α : Type} (l : List α) {i : Int} (h0 : 0 ≤ i) :
    pyIdx l i = l.get? i.toNat := by
  have h : ((i.toNat : Nat) : Int) = i := by omega
  conv_lhs => rw [← h]
  rw [pyIdx_natCast]

theorem normIdx_eq_none_iff (len : Nat) (i : Int) :
    normIdx len i = none ↔ (len : Int) ≤ i ∨ i < -(len : Int) := by
  unfold normIdx
  split <;> split <;> simp <;> omega

theorem pyIdx_eq_none_iff {α : Type} (l : List α) (i : Int) :
    pyIdx l i = none ↔ (l.length : Int) ≤ i ∨ i < -(l.length : Int) := by
  unfold pyIdx
  cases hn : normIdx l.length i with
  | none =>
    simp only [Option.bind]
    rw [← normIdx_eq_none_iff l.length i]
    simp [hn]
  | some k =>
    have hk := normIdx_some_lt hn
    have hr : ¬ ((l.length : Int) ≤ i ∨ i < -(l.length : Int)) := by
      rw [← normIdx_eq_none_iff l.length i]
      simp [hn]
    cases hg : l.get? k with
    | none =>
      exfalso
      have := List.get?_eq_none.mp hg
      omega
    | some a => simp [hg, hr, hk]

theorem pyIdx_mem {α : Type} {l : List α} {i : Int} {a : α}
    (h : pyIdx l i = some a) : a ∈ l := by
  unfold pyIdx at h
  cases hn : normIdx l.length i with
  | none => rw [hn] at h; cases h
  | some k =>
    rw [hn] at h
    exact List.get?_mem h

/-! ### Lemmas about splitlines and join -/

theorem splitOnNl_ne_nil (l : List Char) : splitOnNl l ≠ [] := by
  induction l using splitOnNl.induct <;> simp_all [splitOnNl]

theorem splitOnNl_crnl (rest : List Char) :
    splitOnNl ('\r' :: '\n' :: rest) = [] :: splitOnNl rest := rfl

theorem splitOnNl_nl (rest : List Char) :
    splitOnNl ('\n' :: rest) = [] :: splitOnNl rest := rfl

theorem splitOnNl_cr (rest : List Char) (h : ∀ rest2, rest ≠ '\n' :: rest2) :
    splitOnNl ('\r' :: rest) = [] :: splitOnNl rest := by
  rw [splitOnNl.eq_def]
  split
  · rename_i heq
    cases heq
  · rename_i heq
    injection heq with h1 h2
    exact absurd h2 (h _)
  · rename_i heq
    injection heq with h1 h2
    rw [h2]
  · rename_i heq
    injection heq with h1 h2
    exact absurd h1 (by decide)
  · rename_i x3 c2 r2 hpair hcr hnl heq
    injection heq with h1 h2
    exact absurd h1.symm hcr

theorem splitOnNl_cons (c : Char) (rest : List Char)
    (h1 : c ≠ '\r') (h2 : c ≠ '\n') :
    splitOnNl (c :: rest) =
      (c :: (splitOnNl rest).headD []) :: (splitOnNl rest).tail := by
  conv_lhs => rw [splitOnNl.eq_def]
  split <;> simp_all
  rename_i c2 rest2 hx hr hn
  cases hs : splitOnNl rest2 with
  | nil => exact absurd hs (splitOnNl_ne_nil rest2)
  | cons row rows => simp_all

theorem splitOnNl_subset (l : List Char) :
    ∀ r ∈ splitOnNl l, ∀ x ∈ r, x ∈ l := by
  induction l using splitOnNl.induct with
  | case1 => simp [splitOnNl]
  | case2 rest ih =>
    intro r hr x hx
    rw [splitOnNl_crnl, List.mem_cons] at hr
    rcases hr with h | h
    · subst h; cases hx
    · exact List.mem_cons_of_mem _ (List.mem_cons_of_mem _ (ih r h x hx))
  | case3 rest h3 ih =>
    intro r hr x hx
    rw [splitOnNl_cr rest h3, List.mem_cons] at hr
    rcases hr with h | h
    · subst h; cases hx
    · exact List.mem_cons_of_mem _ (ih r h x hx)
  | case4 rest ih =>
    intro r hr x hx
    rw [splitOnNl_nl, List.mem_cons] at hr
    rcases hr with h | h
    · subst h; cases hx
    · exact List.mem_cons_of_mem _ (ih r h x hx)
  | case5 c2 rest hpair h1 h2 hs ih => exact absurd hs (splitOnNl_ne_nil rest)
  | case6 c2 rest hpair h1 h2 row rows hs ih =>
    intro r hr x hx
    rw [splitOnNl_cons c2 rest (by simpa using h1) (by simpa using h2), hs] at hr
    simp only [List.headD, List.tail] at hr
    rcases List.mem_cons.mp hr with h | h
    · subst h
      rcases List.mem_cons.mp hx with h | h
      · simp [h]
      · exact List.mem_cons_of_mem _
          (ih row (by rw [hs]; exact List.mem_cons_self _ _) x h)
    · exact List.mem_cons_of_mem _
        (ih r (by rw [hs]; exact List.mem_cons_of_mem _ h) x hx)

theorem splitOnNl_noBreak (l : List Char) : ∀ r ∈ splitOnNl l, noBreak r := by
  unfold noBreak
  induction l using splitOnNl.induct with
  | case1 => simp [splitOnNl]
  | case2 rest ih =>
    rw [splitOnNl_crnl]
    simp_all
    exact ih
  | case3 rest h3 ih =>
    rw [splitOnNl_cr rest h3]
    simp_all
    exact ih
  | case4 rest ih =>
    rw [splitOnNl_nl]
    simp_all
    exact ih
  | case5 c2 rest hpair h1 h2 hs ih => exact absurd hs (splitOnNl_ne_nil rest)
  | case6 c2 rest hpair h1 h2 row rows hs ih =>
    rw [splitOnNl_cons c2 rest (by simpa using h1) (by simpa using h2), hs]
    rw [hs] at ih
    simp_all
    exact ih.2

theorem splitOnNl_single (r : List Char) (h : noBreak r) : splitOnNl r = [r] := by
  induction r with
  | nil => simp [splitOnNl]
  | cons c rest ih =>
    have hc := h c (List.mem_cons_self c rest)
    have hrest : noBreak rest := fun a ha => h a (List.mem_cons_of_mem _ ha)
    rw [splitOnNl_cons c rest hc.2 hc.1, ih hrest]
    simp

theorem splitOnNl_append (r : List Char) (l : List Char) (h : noBreak r) :
    splitOnNl (r ++ '\n' :: l) = r :: splitOnNl l := by
  induction r with
  | nil => simp [splitOnNl_nl]
  | cons c rest ih =>
    have hc := h c (List.mem_cons_self c rest)
    have hrest : noBreak rest := fun a ha => h a (List.mem_cons_of_mem _ ha)
    rw [List.cons_append, splitOnNl_cons c _ hc.2 hc.1, ih hrest]
    simp

theorem splitOnNl_joinNl (rows : List (List Char)) (hne : rows ≠ [])
    (hnb : ∀ r ∈ rows, noBreak r) : splitOnNl (joinNl rows) = rows := by
  induction rows with
  | nil => exact absurd rfl hne
  | cons r rest ih =>
    cases rest with
    | nil =>
      simp only [joinNl]
      exact splitOnNl_single r (hnb r (List.mem_cons_self _ _))
    | cons r2 rest2 =>
      rw [show joinNl (r :: r2 :: rest2) = r ++ '\n' :: joinNl (r2 :: rest2) from rfl]
      rw [splitOnNl_append r _ (hnb r (List.mem_cons_self _ _))]
      rw [ih (by simp) (fun a ha => hnb a (List.mem_cons_of_mem _ ha))]

theorem splitlines_eq (s : Str) :
    splitlines s =
      if (splitOnNl s).getLast? = some [] then (splitOnNl s).dropLast
      else splitOnNl s := rfl

theorem splitlines_mem_splitOnNl {s : Str} {r : List Char}
    (h : r ∈ splitlines s) : r ∈ splitOnNl s := by
  rw [splitlines_eq] at h
  split at h
  · exact List.dropLast_subset _ h
  · exact h

theorem splitlines_noBreak (s : Str) : ∀ r ∈ splitlines s, noBreak r :=
  fun r hr => splitOnNl_noBreak s r (splitlines_mem_splitOnNl hr)

theorem mem_of_mem_splitlines {s : Str} {r : List Char} {c : Char}
    (hr : r ∈ splitlines s) (hc : c ∈ r) : c ∈ s :=
  splitOnNl_subset s r (splitlines_mem_splitOnNl hr) c hc

theorem splitlines_joinNl (rows : List (List Char)) (hne : rows ≠ [])
    (hnb : ∀ r ∈ rows, noBreak r) (hrne : ∀ r ∈ rows, r ≠ []) :
    splitlines (joinNl rows) = rows := by
  rw [splitlines_eq]
  rw [splitOnNl_joinNl rows hne hnb]
  split
  · rename_i hlast
    cases h : rows.getLast? with
    | none => rw [h] at hlast; cases hlast
    | some r =>
      rw [h] at hlast
      have hx : r ∈ rows.getLast? := by rw [h]; rfl
      obtain ⟨hne2, hr⟩ := List.mem_getLast?_eq_getLast hx
      have hmem : r ∈ rows := by rw [hr]; exact List.getLast_mem hne2
      simp only [Option.some.injEq] at hlast
      exact absurd hlast (hrne r hmem)
  · rfl

/-! ### Lemmas about the grid and the row-major scan -/

theorem grab_natCast (g : StringGrid) (x y : Nat) :
    g.grab (x : Int) (y : Int) =
      ((splitlines g.grid).get? y).bind (fun row => row.get? x) := by
  unfold StringGrid.grab
  rw [pyIdx_natCast]
  cases h : (splitlines g.grid).get? y with
  | none => rfl
  | some row => simp [pyIdx_natCast]

theorem grab_isSome_of_rect {g : StringGrid} (hrect : Rect g) {x y : Nat}
    (hx : x < g.width) (hy : y < g.height) : (g.grab ↑x ↑y).isSome := by
  rw [grab_natCast]
  cases h : (splitlines g.grid).get? y with
  | none =>
    have h2 := List.get?_eq_none.mp h
    unfold StringGrid.height at hy
    omega
  | some row =>
    have hlen := hrect row (List.get?_mem h)
    cases hc : row.get? x with
    | none =>
      have h2 := List.get?_eq_none.mp hc
      omega
    | some c =>
      rw [List.get?_eq_getElem?] at hc
      simp [hc]

theorem grab_char_mem {g : StringGrid} {x y : Int} {c : Char}
    (h : g.grab x y = some c) : c ∈ g.grid := by
  unfold StringGrid.grab at h
  cases hr : pyIdx (splitlines g.grid) y with
  | none => rw [hr] at h; cases h
  | some row =>
    rw [hr] at h
    exact mem_of_mem_splitlines (pyIdx_mem hr) (pyIdx_mem h)

theorem scanRow_range_none_iff (g : StringGrid) (item : Char) (y : Nat)
    (a n : Nat) (hok : ∀ x, a ≤ x → x < a + n → (g.grab ↑x ↑y).isSome) :
    scanRow g item y (List.range' a n) = .ok none ↔
      ∀ x, a ≤ x → x < a + n → g.grab ↑x ↑y ≠ some item := by
  induction n generalizing a with
  | zero =>
    simp only [List.range', scanRow]
    constructor
    · intro _ x h1 h2
      omega
    · intro _
      trivial
  | succ n ih =>
    rw [List.range'_succ]
    obtain ⟨c, hc⟩ := Option.isSome_iff_exists.mp (hok a (le_refl a) (by omega))
    simp only [scanRow, hc]
    by_cases hci : c = item
    · subst hci
      rw [if_pos rfl]
      constructor
      · intro h
        exact Option.noConfusion (Except.ok.inj h)
      · intro h
        exact absurd hc (h a (le_refl a) (by omega))
    · rw [if_neg hci]
      rw [ih (a + 1) (fun x h1 h2 => hok x (by omega) (by omega))]
      constructor
      · intro h x h1 h2
        rcases Nat.eq_or_lt_of_le h1 with h3 | h3
        · rw [← h3, hc]
          intro hcon
          exact hci (Option.some.inj hcon)
        · exact h x (by omega) (by omega)
      · intro h x h1 h2
        exact h x (by omega) (by omega)

theorem scanRow_range_some_iff (g : StringGrid) (item : Char) (y : Nat)
    (a n : Nat) (hok : ∀ x, a ≤ x → x < a + n → (g.grab ↑x ↑y).isSome)
    (p : Nat × Nat) :
    scanRow g item y (List.range' a n) = .ok (some p) ↔
      ∃ x1, p = (x1, y) ∧ a ≤ x1 ∧ x1 < a + n ∧ g.grab ↑x1 ↑y = some item ∧
        ∀ x, a ≤ x → x < x1 → g.grab ↑x ↑y ≠ some item := by
  induction n generalizing a with
  | zero =>
    simp only [List.range', scanRow]
    constructor
    · intro h
      exact Option.noConfusion (Except.ok.inj h)
    · rintro ⟨x1, _, h1, h2, _⟩
      omega
  | succ n ih =>
    rw [List.range'_succ]
    obtain ⟨c, hc⟩ := Option.isSome_iff_exists.mp (hok a (le_refl a) (by omega))
    simp only [scanRow, hc]
    by_cases hci : c = item
    · subst hci
      rw [if_pos rfl]
      constructor
      · intro h
        refine ⟨a, (Option.some.inj (Except.ok.inj h)).symm, le_refl a, by omega, hc, ?_⟩
        intro x h1 h2
        omega
      · rintro ⟨x1, rfl, h1, h2, h3, h4⟩
        rcases Nat.eq_or_lt_of_le h1 with h5 | h5
        · rw [h5]
        · exact absurd hc (h4 a (le_refl a) h5)
    · rw [if_neg hci]
      rw [ih (a + 1) (fun x h1 h2 => hok x (by omega) (by omega))]
      constructor
      · rintro ⟨x1, rfl, h1, h2, h3, h4⟩
        refine ⟨x1, rfl, by omega, by omega, h3, ?_⟩
        intro x hx1 hx2
        rcases Nat.eq_or_lt_of_le hx1 with h5 | h5
        · rw [← h5, hc]
          intro hcon
          exact hci (Option.some.inj hcon)
        · exact h4 x (by omega) hx2
      · rintro ⟨x1, rfl, h1, h2, h3, h4⟩
        rcases Nat.eq_or_lt_of_le h1 with h5 | h5
        · exfalso
          rw [← h5] at h3
          rw [hc] at h3
          exact hci (Option.some.inj h3)
        · exact ⟨x1, rfl, by omega, by omega, h3,
            fun x hx1 hx2 => h4 x (by omega) hx2⟩

theorem scanRow_range_ne_error (g : StringGrid) (item : Char) (y : Nat)
    (a n : Nat) (hok : ∀ x, a ≤ x → x < a + n → (g.grab ↑x ↑y).isSome)
    (e : PyErr) : scanRow g item y (List.range' a n) ≠ .error e := by
  induction n generalizing a with
  | zero =>
    simp [List.range', scanRow]
  | succ n ih =>
    rw [List.range'_succ]
    obtain ⟨c, hc⟩ := Option.isSome_iff_exists.mp (hok a (le_refl a) (by omega))
    simp only [scanRow, hc]
    split
    · intro h
      exact Except.noConfusion h
    · exact ih (a + 1) (fun x h1 h2 => hok x (by omega) (by omega))

theorem rect_row_ok {g : StringGrid} (hrect : Rect g) {y : Nat}
    (hy : y < g.height) :
    ∀ x, 0 ≤ x → x < 0 + g.width → (g.grab ↑x ↑y).isSome :=
  fun _ _ h2 => grab_isSome_of_rect hrect (by omega) hy

theorem scanRows_range_none_iff {g : StringGrid} (hrect : Rect g) (item : Char)
    (b m : Nat) (hm : b + m ≤ g.height) :
    scanRows g item (List.range' b m) = .ok none ↔
      ∀ y, b ≤ y → y < b + m → ∀ x, x < g.width → g.grab ↑x ↑y ≠ some item := by
  induction m generalizing b with
  | zero =>
    simp only [List.range', scanRows]
    constructor
    · intro _ y h1 h2
      omega
    · intro _
      trivial
  | succ m ih =>
    rw [List.range'_succ]
    have hok := rect_row_ok hrect (show b < g.height by omega)
    simp only [scanRows, List.range_eq_range']
    cases hres : scanRow g item b (List.range' 0 g.width) with
    | error e => exact absurd hres (scanRow_range_ne_error g item b 0 g.width hok e)
    | ok opt =>
      cases opt with
      | some p =>
        constructor
        · intro h
          exact Option.noConfusion (Except.ok.inj h)
        · intro h
          obtain ⟨x1, rfl, _, hx1, hmatch, _⟩ :=
            (scanRow_range_some_iff g item b 0 g.width hok p).mp hres
          exact absurd hmatch (h b (le_refl b) (by omega) x1 (by omega))
      | none =>
        rw [ih (b + 1) (by omega)]
        have hnone := (scanRow_range_none_iff g item b 0 g.width hok).mp hres
        constructor
        · intro h y h1 h2 x hx
          rcases Nat.eq_or_lt_of_le h1 with h3 | h3
          · rw [← h3]
            exact hnone x (by omega) (by omega)
          · exact h y (by omega) (by omega) x hx
        · intro h y h1 h2 x hx
          exact h y (by omega) (by omega) x hx

theorem scanRows_range_ne_error {g : StringGrid} (hrect : Rect g) (item : Char)
    (b m : Nat) (hm : b + m ≤ g.height) (e : PyErr) :
    scanRows g item (List.range' b m) ≠ .error e := by
  induction m generalizing b with
  | zero =>
    simp [List.range', scanRows]
  | succ m ih =>
    rw [List.range'_succ]
    have hok := rect_row_ok hrect (show b < g.height by omega)
    simp only [scanRows, List.range_eq_range']
    cases hres : scanRow g item b (List.range' 0 g.width) with
    | error e2 => exact absurd hres (scanRow_range_ne_error g item b 0 g.width hok e2)
    | ok opt =>
      cases opt with
      | some p =>
        intro h
        exact Except.noConfusion h
      | none => exact ih (b + 1) (by omega)

theorem scanRows_range_some_iff {g : StringGrid} (hrect : Rect g) (item : Char)
    (b m : Nat) (hm : b + m ≤ g.height) (p : Nat × Nat) :
    scanRows g item (List.range' b m) = .ok (some p) ↔
      b ≤ p.2 ∧ p.2 < b + m ∧ p.1 < g.width ∧ g.grab ↑p.1 ↑p.2 = some item ∧
        (∀ y, b ≤ y → y < p.2 → ∀ x, x < g.width → g.grab ↑x ↑y ≠ some item) ∧
        (∀ x, x < p.1 → g.grab ↑x ↑p.2 ≠ some item) := by
  induction m generalizing b with
  | zero =>
    simp only [List.range', scanRows]
    constructor
    · intro h
      exact Option.noConfusion (Except.ok.inj h)
    · rintro ⟨h1, h2, _⟩
      omega
  | succ m ih =>
    rw [List.range'_succ]
    have hok := rect_row_ok hrect (show b < g.height by omega)
    simp only [scanRows, List.range_eq_range']
    cases hres : scanRow g item b (List.range' 0 g.width) with
    | error e => exact absurd hres (scanRow_range_ne_error g item b 0 g.width hok e)
    | ok opt =>
      cases opt with
      | some q =>
        obtain ⟨x1, rfl, _, hx1, hmatch, hpre⟩ :=
          (scanRow_range_some_iff g item b 0 g.width hok q).mp hres
        constructor
        · intro h
          obtain rfl : (x1, b) = p := Option.some.inj (Except.ok.inj h)
          refine ⟨le_refl b, by omega, by omega, hmatch, ?_, ?_⟩
          · intro y h1 h2 x hx
            omega
          · intro x hx
            exact hpre x (by omega) hx
        · rintro ⟨h1, h2, h3, h4, h5, h6⟩
          have hpb : p.2 = b := by
            by_contra hne
            exact h5 b (le_refl b) (by omega) x1 (by omega) hmatch
          have hpx : p.1 = x1 := by
            rcases Nat.lt_trichotomy p.1 x1 with h7 | h7 | h7
            · exact absurd h4 (by rw [hpb]; exact hpre p.1 (by omega) h7)
            · exact h7
            · exact absurd (hpb ▸ hmatch) (h6 x1 h7)
          have : p = (x1, b) := by
            rcases p with ⟨pa, pb⟩
            simp_all
          rw [this]
      | none =>
        have hnone := (scanRow_range_none_iff g item b 0 g.width hok).mp hres
        rw [ih (b + 1) (by omega)]
        constructor
        · rintro ⟨h1, h2, h3, h4, h5, h6⟩
          refine ⟨by omega, by omega, h3, h4, ?_, h6⟩
          intro y hy1 hy2 x hx
          rcases Nat.eq_or_lt_of_le hy1 with h7 | h7
          · rw [← h7]
            exact hnone x (by omega) (by omega)
          · exact h5 y (by omega) hy2 x hx
        · rintro ⟨h1, h2, h3, h4, h5, h6⟩
          have hpb : b < p.2 := by
            rcases Nat.eq_or_lt_of_le h1 with h7 | h7
            · exact absurd h4 (by rw [← h7]; exact hnone p.1 (by omega) (by omega))
            · exact h7
          exact ⟨by omega, by omega, h3, h4,
            fun y hy1 hy2 x hx => h5 y (by omega) hy2 x hx, h6⟩

theorem find_none_iff {g : StringGrid} (hrect : Rect g) (item : Char) :
    find_grid_item g item = .ok none ↔
      ∀ x y : Nat, x < g.width → y < g.height → g.grab ↑x ↑y ≠ some item := by
  unfold find_grid_item
  rw [List.range_eq_range',
    scanRows_range_none_iff hrect item 0 g.height (by omega)]
  constructor
  · intro h x y hx hy
    exact h y (by omega) (by omega) x hx
  · intro h y h1 h2 x hx
    exact h x y hx (by omega)

theorem find_some_props {g : StringGrid} (hrect : Rect g) {item : Char}
    {p : Nat × Nat} (h : find_grid_item g item = .ok (some p)) :
    p.1 < g.width ∧ p.2 < g.height ∧ g.grab ↑p.1 ↑p.2 = some item ∧
      (∀ y, y < p.2 → ∀ x, x < g.width → g.grab ↑x ↑y ≠ some item) ∧
      (∀ x, x < p.1 → g.grab ↑x ↑p.2 ≠ some item) := by
  unfold find_grid_item at h
  rw [List.range_eq_range'] at h
  obtain ⟨h1, h2, h3, h4, h5, h6⟩ :=
    (scanRows_range_some_iff hrect item 0 g.height (by omega) p).mp h
  exact ⟨h3, by omega, h4, fun y hy => h5 y (by omega) hy, h6⟩

theorem find_ne_error {g : StringGrid} (hrect : Rect g) (item : Char)
    (e : PyErr) : find_grid_item g item ≠ .error e := by
  unfold find_grid_item
  rw [List.range_eq_range']
  exact scanRows_range_ne_error hrect item 0 g.height (by omega) e

theorem scanRow_some_grab {g : StringGrid} {item : Char} {y : Nat}
    {xs : List Nat} {p : Nat × Nat}
    (h : scanRow g item y xs = .ok (some p)) :
    g.grab ↑p.1 ↑p.2 = some item := by
  induction xs with
  | nil => exact Option.noConfusion (Except.ok.inj h)
  | cons x2 rest ih =>
    simp only [scanRow] at h
    split at h
    · exact Except.noConfusion h
    · rename_i c hg
      split at h
      · rename_i hc
        obtain rfl : (x2, y) = p := Option.some.inj (Except.ok.inj h)
        rw [hg, hc]
      · exact ih h

theorem scanRows_some_grab {g : StringGrid} {item : Char} {ys : List Nat}
    {p : Nat × Nat} (h : scanRows g item ys = .ok (some p)) :
    g.grab ↑p.1 ↑p.2 = some item := by
  induction ys with
  | nil => exact Option.noConfusion (Except.ok.inj h)
  | cons y rest ih =>
    simp only [scanRows] at h
    cases hres : scanRow g item y (List.range g.width) with
    | error e =>
      rw [hres] at h
      exact Except.noConfusion h
    | ok opt =>
      rw [hres] at h
      cases opt with
      | some q =>
        obtain rfl : q = p := Option.some.inj (Except.ok.inj h)
        exact scanRow_some_grab hres
      | none => exact ih h

theorem find_not_some_of_not_mem {g : StringGrid} {item : Char}
    (h : item ∉ g.grid) (p : Nat × Nat) :
    find_grid_item g item ≠ .ok (some p) :=
  fun hc => h (grab_char_mem (scanRows_some_grab hc))

/-! ### Claim theorems -/

/-- C1: evaluation of `swipe` at the failing input `".X\n.."` with target
`'X'` and direction `"right"`.  The claim (like the function's own
docstring) requires a result identical to the original except that the
destination cell holds the moved character and the character's original
cell holds the fill character.  The original cell of `X` is column 1,
row 0 (second conjunct), yet the axis-swapped indexing writes `X` into
row 1, column 1 and clears row 1, column 0, leaving the original cell
untouched: the in-bounds move returns `".X\n.X"`, which contains two
copies of `X` and no fill character in the vacated cell. -/
theorem claim1_swipe_axis_swap_eval :
    swipe ⟨".X\n..".data⟩ 'X' "right".data '.' = .ok ".X\n.X".data ∧
    find_grid_item ⟨".X\n..".data⟩ 'X' = .ok (some (1, 0)) := by
  constructor <;> decide

/-- C2: when the character is located and the destination computed by
`swipe` fails its bounds check — the row-displaced column checked against
`[0, height)` and the column-displaced row checked against `[0, width)`,
exactly as the source checks them — `swipe` returns the `"OOB"` sentinel
string as an ordinary return value.  The embedding is purely functional,
so the input grid text is untouched by the call. -/
theorem claim2_swipe_oob (g : StringGrid) (c : Char) (d : Str) (fill : Char)
    (cx cy : Nat) (dx dy : Int)
    (hfind : find_grid_item g c = .ok (some (cx, cy)))
    (hd : swipeDelta (pyLower d) = .ok (dx, dy))
    (hoob : (cx : Int) + dy < 0 ∨ (g.height : Int) ≤ (cx : Int) + dy ∨
      (cy : Int) + dx < 0 ∨ (g.width : Int) ≤ (cy : Int) + dx) :
    swipe g c d fill = .ok oobStr := by
  unfold swipe
  simp only [hfind, hd]
  rw [if_pos hoob]

/-- C2 witness: on the grid `"X."` moving `'X'` left, the computed row
`0 + (-1)` is negative, so the call returns the sentinel. -/
theorem claim2_swipe_oob_witness :
    swipe ⟨"X.".data⟩ 'X' "left".data '.' = .ok oobStr :=
  claim2_swipe_oob ⟨"X.".data⟩ 'X' "left".data '.' 0 0 (-1) 0
    (by decide) (by decide) (by decide)

/-- C3 counterexample: the claim says any negative column is an OutOfRange
error, but on the grid `"ab"` the lookup `grab (-1, 0)` succeeds and
returns `'b'` — Python's negative-index wraparound, not an error. -/
theorem claim3_negative_lookup_counterexample :
    StringGrid.grab ⟨"ab".data⟩ (-1) 0 = some 'b' := by decide

theorem grab_none_rect_iff {g : StringGrid} (hrect : Rect g) (x y : Int) :
    g.grab x y = none ↔
      (g.height : Int) ≤ y ∨ y < -(g.height : Int) ∨
      (g.width : Int) ≤ x ∨ x < -(g.width : Int) := by
  unfold StringGrid.grab
  have hh : (splitlines g.grid).length = g.height := rfl
  cases hr : pyIdx (splitlines g.grid) y with
  | none =>
    have h1 := (pyIdx_eq_none_iff _ y).mp hr
    rw [hh] at h1
    simp only [Option.bind]
    constructor
    · intro _
      tauto
    · intro _
      trivial
  | some row =>
    have hy : ¬ ((g.height : Int) ≤ y ∨ y < -(g.height : Int)) := by
      intro hcon
      have h2 : pyIdx (splitlines g.grid) y = none := by
        rw [pyIdx_eq_none_iff, hh]
        tauto
      rw [h2] at hr
      exact Option.noConfusion hr
    have hlen := hrect row (pyIdx_mem hr)
    have hred : ((some row).bind fun r => pyIdx r x) = pyIdx row x := rfl
    rw [hred, pyIdx_eq_none_iff row x]
    simp only [hlen]
    tauto

/-- C3 amended: on a rectangular grid, `grab` fails (raises `IndexError`)
exactly when the row index lies outside `[-height, height)` or the column
index lies outside `[-width, width)`; negative indices inside those ranges
are valid wraparound lookups, and indices at or beyond the dimension
fail. -/
theorem claim3_grab_range (g : StringGrid) (hrect : Rect g) (x y : Int) :
    g.grab x y = none ↔
      (g.height : Int) ≤ y ∨ y < -(g.height : Int) ∨
      (g.width : Int) ≤ x ∨ x < -(g.width : Int) :=
  grab_none_rect_iff hrect x y

/-- C3 amended, witness: on the rectangular grid `"ab"` the column 5 is at
or beyond the width, so the lookup fails. -/
theorem claim3_grab_range_witness :
    StringGrid.grab ⟨"ab".data⟩ 5 0 = none :=
  (claim3_grab_range ⟨"ab".data⟩ (by decide) 5 0).mpr (by decide)

/-- C5: on a well-formed (rectangular) grid — the spec leaves ragged text
undefined — `find_grid_item` never raises; it returns the NotFound
sentinel (`None`) exactly when no cell equals the target; and any returned
coordinate holds the target, with no match in any earlier row nor earlier
in the same row: the first match in the top-to-bottom, left-to-right scan
order, later duplicates ignored. -/
theorem claim5_find_first_row_major (g : StringGrid) (c : Char)
    (hrect : Rect g) :
    (∀ e, find_grid_item g c ≠ .error e) ∧
    (find_grid_item g c = .ok none ↔
      ∀ x y : Nat, x < g.width → y < g.height → g.grab ↑x ↑y ≠ some c) ∧
    (∀ px py : Nat, find_grid_item g c = .ok (some (px, py)) →
      px < g.width ∧ py < g.height ∧ g.grab ↑px ↑py = some c ∧
        (∀ x y : Nat, y < py → x < g.width → g.grab ↑x ↑y ≠ some c) ∧
        (∀ x : Nat, x < px → g.grab ↑x ↑py ≠ some c)) := by
  refine ⟨fun e => find_ne_error hrect c e, find_none_iff hrect c, ?_⟩
  intro px py h
  obtain ⟨h1, h2, h3, h4, h5⟩ := find_some_props hrect h
  exact ⟨h1, h2, h3, fun x y hy hx => h4 y hy x hx, h5⟩

/-- C5 witness: on `"ab\ncd"` the character `'c'` is found at column 0 of
row 1, and the cell there indeed holds it. -/
theorem claim5_find_first_row_major_witness :
    StringGrid.grab ⟨"ab\ncd".data⟩ 0 1 = some 'c' :=
  (((claim5_find_first_row_major ⟨"ab\ncd".data⟩ 'c' (by decide)).2.2
    0 1 (by decide)).2.2.1)

/-- C10: when the target character occurs nowhere in the grid text, the
locate step yields no coordinate and `look` raises a hard error before
processing the path (whatever the path holds): it never returns the OOB
sentinel and never returns a character. -/
theorem claim10_look_absent_raises (g : StringGrid) (c : Char) (path : Str)
    (habs : c ∉ g.grid) : ∃ e, look g c path = .error e := by
  unfold look
  cases hf : find_grid_item g c with
  | error e => exact ⟨e, rfl⟩
  | ok opt =>
    cases opt with
    | none => exact ⟨.typeError, rfl⟩
    | some p => exact absurd hf (find_not_some_of_not_mem habs p)

/-- C10 witness: `'z'` is absent from `"ab"`, so the look raises. -/
theorem claim10_look_absent_raises_witness :
    ∃ e, look ⟨"ab".data⟩ 'z' "U".data = .error e :=
  claim10_look_absent_raises ⟨"ab".data⟩ 'z' "U".data (by decide)

/-- C4 counterexample: on the grid `"ab"` (width 2) with `'a'` at (0, 0),
the path `"RR"` ends at column 2 = width, which passes the inclusive
bounds check `col ≤ width`; the claim asserts the character access then
succeeds, but the access itself raises `IndexError` instead of returning a
character. -/
theorem claim4_inclusive_boundary_counterexample :
    look ⟨"ab".data⟩ 'a' "RR".data = .error PyErr.indexError := by decide

/-- C4 amended: on a rectangular grid containing the target, `look`
bounds-checks only the final coordinate of the walk (`lookWalk` performs
no per-step check, so intermediate positions may leave bounds freely),
using the inclusive ranges `[0, width]` and `[0, height]`: a final
coordinate strictly outside yields the OOB sentinel; one strictly inside
(`col < width`, `row < height`) yields the character at that coordinate;
one accepted by the inclusive check but on the boundary (`col = width` or
`row = height`) makes the access itself raise a hard `IndexError` — the
claim's assertion that the access succeeds there fails. -/
theorem claim4_look_final_inclusive_check (g : StringGrid) (c : Char)
    (path : Str) (sx sy : Nat) (fx fy : Int)
    (hrect : Rect g)
    (hfind : find_grid_item g c = .ok (some (sx, sy)))
    (hw : lookWalk ((sx : Int), (sy : Int)) path = .ok (fx, fy)) :
    ((fx < 0 ∨ (g.width : Int) < fx ∨ fy < 0 ∨ (g.height : Int) < fy) →
      look g c path = .ok oobStr) ∧
    ((0 ≤ fx ∧ fx < (g.width : Int) ∧ 0 ≤ fy ∧ fy < (g.height : Int)) →
      ∃ ch, g.grab fx fy = some ch ∧ look g c path = .ok [ch]) ∧
    ((0 ≤ fx ∧ fx ≤ (g.width : Int) ∧ 0 ≤ fy ∧ fy ≤ (g.height : Int) ∧
      (fx = (g.width : Int) ∨ fy = (g.height : Int))) →
      look g c path = .error .indexError) := by
  have hl : look g c path =
      if fx < 0 ∨ (g.width : Int) < fx ∨ fy < 0 ∨ (g.height : Int) < fy then
        .ok oobStr
      else
        match g.grab fx fy with
        | none => .error .indexError
        | some ch => .ok [ch] := by
    unfold look
    simp only [hfind, hw]
  refine ⟨?_, ?_, ?_⟩
  · intro h
    rw [hl, if_pos h]
  · rintro ⟨h1, h2, h3, h4⟩
    have hx : fx = ((fx.toNat : Nat) : Int) := by omega
    have hy : fy = ((fy.toNat : Nat) : Int) := by omega
    have hsome : (g.grab ↑fx.toNat ↑fy.toNat).isSome :=
      grab_isSome_of_rect hrect (by omega) (by omega)
    obtain ⟨ch, hch⟩ := Option.isSome_iff_exists.mp hsome
    refine ⟨ch, ?_, ?_⟩
    · rw [hx, hy]
      exact hch
    · rw [hl, if_neg (by omega)]
      rw [hx, hy, hch]
  · rintro ⟨h1, h2, h3, h4, h5⟩
    have hnone : g.grab fx fy = none := by
      rw [grab_none_rect_iff hrect]
      omega
    rw [hl, if_neg (by omega), hnone]

/-- C4 amended, witness: on `"ab"` the path `"LR"` transiently leaves the
grid at column −1 and returns; only the final coordinate (0, 0) is
checked, strictly inside, and the character there is returned. -/
theorem claim4_look_final_inclusive_check_witness :
    look ⟨"ab".data⟩ 'a' "LR".data = .ok ['a'] := by
  obtain ⟨ch, hch, hlook⟩ :=
    (claim4_look_final_inclusive_check ⟨"ab".data⟩ 'a' "LR".data 0 0 0 0
      (by decide) (by decide) (by decide)).2.1 (by decide)
  have h2 : StringGrid.grab ⟨"ab".data⟩ 0 0 = some 'a' := by decide
  rw [h2] at hch
  rw [(Option.some.inj hch).symm] at hlook
  exact hlook

theorem grab_char_mem_row {g : StringGrid} {x y : Int} {c : Char}
    (h : g.grab x y = some c) : ∃ r ∈ splitlines g.grid, c ∈ r := by
  unfold StringGrid.grab at h
  cases hr : pyIdx (splitlines g.grid) y with
  | none =>
    rw [hr] at h
    exact Option.noConfusion h
  | some row =>
    rw [hr] at h
    exact ⟨row, pyIdx_mem hr, pyIdx_mem h⟩

theorem pySet2_some_inv {α : Type} {ll : List (List α)} {i j : Int} {a : α}
    {ll2 : List (List α)} (h : pySet2 ll i j a = some ll2) :
    ∃ k jn row, normIdx ll.length i = some k ∧ ll.get? k = some row ∧
      normIdx row.length j = some jn ∧ ll2 = ll.set k (row.set jn a) := by
  unfold pySet2 pySet at h
  split at h
  · exact Option.noConfusion h
  · rename_i k hk
    split at h
    · exact Option.noConfusion h
    · rename_i row hrow
      cases hj : normIdx row.length j with
      | none =>
        rw [hj] at h
        exact Option.noConfusion h
      | some jn =>
        rw [hj] at h
        exact ⟨k, jn, row, hk, hrow, hj, (Option.some.inj h).symm⟩

theorem pySet2_length {α : Type} {ll : List (List α)} {i j : Int} {a : α}
    {ll2 : List (List α)} (h : pySet2 ll i j a = some ll2) :
    ll2.length = ll.length := by
  obtain ⟨k, jn, row, _, _, _, heq⟩ := pySet2_some_inv h
  rw [heq, List.length_set]

theorem pySet2_rows {α : Type} {ll : List (List α)} {i j : Int} {a : α}
    {ll2 : List (List α)} (h : pySet2 ll i j a = some ll2) :
    ∀ r2 ∈ ll2, ∃ r ∈ ll, r2 = r ∨ ∃ jn : Nat, r2 = r.set jn a := by
  obtain ⟨k, jn, row, hk, hrow, hj, heq⟩ := pySet2_some_inv h
  intro r2 hr2
  rw [heq] at hr2
  rcases List.mem_or_eq_of_mem_set hr2 with h2 | h2
  · exact ⟨r2, h2, Or.inl rfl⟩
  · exact ⟨row, List.get?_mem hrow, Or.inr ⟨jn, h2⟩⟩

theorem headD_mem {α : Type} {l : List α} (h : l ≠ []) (d : α) :
    l.headD d ∈ l := by
  cases l with
  | nil => exact absurd rfl h
  | cons a rest => exact List.mem_cons_self a rest

/-- C6 counterexample: the claim quantifies over every grid containing the
target.  On the ragged grid `"ab\n\n"` (rows `"ab"` and `""`), moving
`'a'` right passes the bounds check and returns the text `".a\n"`, whose
construction has height 1 while the original grid has height 2.  A fill
character that is itself a line break also breaks the round trip on a
perfectly rectangular grid: moving `'a'` right on `"ab\ncd"` with fill
`'\n'` returns `"\na\ncd"`, whose construction has height 3 against the
original 2. -/
theorem claim6_dims_counterexample :
    (swipe ⟨"ab\n\n".data⟩ 'a' "right".data '.' = .ok ".a\n".data ∧
      StringGrid.height ⟨"ab\n\n".data⟩ = 2 ∧
      StringGrid.height ⟨".a\n".data⟩ = 1) ∧
    (swipe ⟨"ab\ncd".data⟩ 'a' "right".data '\n' = .ok "\na\ncd".data ∧
      StringGrid.height ⟨"ab\ncd".data⟩ = 2 ∧
      StringGrid.height ⟨"\na\ncd".data⟩ = 3) := by
  exact ⟨⟨by decide, by decide, by decide⟩, ⟨by decide, by decide, by decide⟩⟩

/-- C6 amended: on a rectangular grid, with a fill character that is not
itself a line break, any text returned by `swipe` is either the `"OOB"`
sentinel or a grid text whose construction yields the original's width and
height. -/
theorem claim6_swipe_dims (g : StringGrid) (c : Char) (d : Str)
    (fill : Char) (t : Str)
    (hrect : Rect g) (hfill : fill ≠ '\n' ∧ fill ≠ '\r')
    (h : swipe g c d fill = .ok t) :
    t = oobStr ∨
      (StringGrid.height ⟨t⟩ = g.height ∧ StringGrid.width ⟨t⟩ = g.width) := by
  unfold swipe at h
  cases hfind : find_grid_item g c with
  | error e =>
    simp only [hfind] at h
    exact Except.noConfusion h
  | ok itemOpt =>
    cases hd : swipeDelta (pyLower d) with
    | error e =>
      simp only [hfind, hd] at h
      exact Except.noConfusion h
    | ok dxy =>
      obtain ⟨dx, dy⟩ := dxy
      cases itemOpt with
      | none =>
        simp only [hfind, hd] at h
        exact Except.noConfusion h
      | some item =>
        simp only [hfind, hd] at h
        split at h
        · left
          exact (Except.ok.inj h).symm
        · split at h
          · exact Except.noConfusion h
          · rename_i rx1 hset1
            split at h
            · exact Except.noConfusion h
            · rename_i rx2 hset2
              right
              have ht : t = joinNl rx2 := (Except.ok.inj h).symm
              obtain ⟨hx, hy, hgrab, _, _⟩ := find_some_props hrect hfind
              have hclean := splitlines_noBreak g.grid
              obtain ⟨r0, hr0, hcr0⟩ := grab_char_mem_row hgrab
              have hc_clean : c ≠ '\n' ∧ c ≠ '\r' := hclean r0 hr0 c hcr0
              have h1len : rx1.length = g.height := by
                rw [pySet2_length hset1]
                rfl
              have h1rows : ∀ r ∈ rx1, r.length = g.width ∧ noBreak r := by
                intro r hr
                obtain ⟨q0, hq0, hcase⟩ := pySet2_rows hset1 r hr
                rcases hcase with heq | ⟨jn, heq⟩
                · rw [heq]
                  exact ⟨hrect q0 hq0, hclean q0 hq0⟩
                · rw [heq]
                  constructor
                  · rw [List.length_set]
                    exact hrect q0 hq0
                  · intro ch hch
                    rcases List.mem_or_eq_of_mem_set hch with h2 | h2
                    · exact hclean q0 hq0 ch h2
                    · rw [h2]
                      exact hc_clean
              have h2len : rx2.length = g.height := by
                rw [pySet2_length hset2, h1len]
              have h2rows : ∀ r ∈ rx2, r.length = g.width ∧ noBreak r := by
                intro r hr
                obtain ⟨q1, hq1, hcase⟩ := pySet2_rows hset2 r hr
                rcases hcase with heq | ⟨jn, heq⟩
                · rw [heq]
                  exact h1rows q1 hq1
                · obtain ⟨hlen1, hnb1⟩ := h1rows q1 hq1
                  rw [heq]
                  constructor
                  · rw [List.length_set, hlen1]
                  · intro ch hch
                    rcases List.mem_or_eq_of_mem_set hch with h2 | h2
                    · exact hnb1 ch h2
                    · rw [h2]
                      exact hfill
              have h2ne : rx2 ≠ [] := by
                intro hc2
                rw [hc2] at h2len
                simp only [List.length_nil] at h2len
                omega
              have hsplit : splitlines (joinNl rx2) = rx2 :=
                splitlines_joinNl rx2 h2ne (fun r hr => (h2rows r hr).2)
                  (fun r hr => by
                    have hlw := (h2rows r hr).1
                    intro hc2
                    rw [hc2] at hlw
                    simp only [List.length_nil] at hlw
                    omega)
              rw [ht]
              constructor
              · show (splitlines (joinNl rx2)).length = g.height
                rw [hsplit, h2len]
              · show ((splitlines (joinNl rx2)).headD []).length = g.width
                rw [hsplit]
                exact (h2rows _ (headD_mem h2ne [])).1

/-- C6 amended, witness: on the square grid `".X\n.."` the move right is
accepted and returns a text whose construction is again 2 by 2. -/
theorem claim6_swipe_dims_witness :
    ".X\n.X".data = oobStr ∨
      (StringGrid.height ⟨".X\n.X".data⟩ = StringGrid.height ⟨".X\n..".data⟩ ∧
        StringGrid.width ⟨".X\n.X".data⟩ = StringGrid.width ⟨".X\n..".data⟩) :=
  claim6_swipe_dims ⟨".X\n..".data⟩ 'X' "right".data '.' ".X\n.X".data
    (by decide) (by decide) (by decide)

/-- C9: `take_while` yields exactly the maximal satisfying prefix: every
yielded element satisfies the predicate, the input splits as the yielded
prefix followed by a remainder, and that remainder is either empty or
begins with the first failing element — after which nothing further is
yielded, even when later elements satisfy the predicate.  Concretely,
`take_while [1,2,3,10,4] (x < 5)` yields `[1,2,3]`, stopping permanently
at 10 although 4 also satisfies the predicate. -/
theorem claim9_take_while_maximal_sat :
    (∀ (α : Type) (l : List α) (p : α → Bool),
      (∀ x ∈ take_while l p, p x = true) ∧
      ∃ rest, l = take_while l p ++ rest ∧
        (rest = [] ∨ ∃ y ys, rest = y :: ys ∧ p y = false)) ∧
    take_while [1, 2, 3, 10, 4] (fun x => decide (x < 5)) = [1, 2, 3] ∧
    (fun x => decide (x < 5)) 4 = true := by
  refine ⟨?_, by decide, by decide⟩
  intro α l p
  induction l with
  | nil => exact ⟨by simp [take_while], [], by simp [take_while]⟩
  | cons a rest ih =>
    by_cases hp : p a
    · have hdef : take_while (a :: rest) p = a :: take_while rest p := by
        simp [take_while, hp]
      obtain ⟨ih1, r2, ih2, ih3⟩ := ih
      refine ⟨?_, r2, ?_, ih3⟩
      · intro x hx
        rw [hdef] at hx
        rcases List.mem_cons.mp hx with h | h
        · rw [h]
          exact hp
        · exact ih1 x h
      · rw [hdef, List.cons_append]
        rw [← ih2]
    · have hdef : take_while (a :: rest) p = [] := by
        simp [take_while, hp]
      refine ⟨?_, a :: rest, ?_, Or.inr ⟨a, rest, rfl, by simpa using hp⟩⟩
      · intro x hx
        rw [hdef] at hx
        cases hx
      · rw [hdef]
        rfl

theorem convertAll_of_ints (l : List PyVal)
    (h : ∀ v ∈ l, ∃ n : Int, v = PyVal.int n) :
    convertAll l = (l, .ok ()) := by
  induction l with
  | nil => rfl
  | cons v vs ih =>
    obtain ⟨n, hn⟩ := h v (List.mem_cons_self v vs)
    subst hn
    simp only [convertAll, pyIntConv]
    rw [ih (fun w hw => h w (List.mem_cons_of_mem _ hw))]

theorem buildP_str_ints (s : Str) (flags : List Int)
    (hlen : s.length = flags.length) :
    buildP (pyElems (PySeq.str s)) (flags.map PyVal.int) =
      .ok (maskSelectGE1 s flags) := by
  induction s generalizing flags with
  | nil =>
    cases flags with
    | nil => rfl
    | cons n ns => simp at hlen
  | cons c rest ih =>
    cases flags with
    | nil => simp at hlen
    | cons n ns =>
      have hlen2 : rest.length = ns.length := by
        simp at hlen
        omega
      simp only [pyElems, List.map_cons, buildP, pyGE1]
      have ih2 := ih ns hlen2
      simp only [pyElems] at ih2
      rw [ih2]
      simp only [maskSelectGE1, pyStrConv]
      by_cases hn : 1 ≤ n
      · rw [if_pos (by simpa using hn), if_pos hn]
        rfl
      · rw [if_neg (by simpa using hn), if_neg hn]

/-- C9 witness: the concrete run from the claim. -/
theorem claim9_take_while_maximal_sat_witness :
    take_while [1, 2, 3, 10, 4] (fun x => decide (x < 5)) = [1, 2, 3] :=
  claim9_take_while_maximal_sat.2.1

/-- C7 counterexample: (1) with the sequence `"a"` and an empty mask the
length mismatch is returned as an ordinary value — the IndexError
instance — and not raised through control flow; (2) with the list
`[1, 2, 3]` and the equal-length mask `[1, 0, 1]`, the call returns
`[1, 2]`, the first two elements, not the truthy-flag subsequence
`[1, 3]`; (3) with the string `"a"` and the mask `[-1]`, whose flag is
truthy (nonzero), the call returns the empty string instead of the truthy
subsequence `"a"` — the code tests `>= 1`, not truthiness. -/
theorem claim7_counterexample :
    (select (.str "a".data) [] =
      ([], .ok (.exnVal "Length of matches not length of x".data))) ∧
    (select (.list [.int 1, .int 2, .int 3]) [.int 1, .int 0, .int 1] =
      ([.int 1, .int 0, .int 1], .ok (.seq (.list [.int 1, .int 2])))) ∧
    (select (.str "a".data) [.int (-1)] =
      ([.int (-1)], .ok (.seq (.str []))) ∧ (-1 : Int) ≠ 0 ∧
      maskSelectSpec "a".data [-1] = "a".data) :=
  ⟨by decide, by decide, by decide, by decide, by decide⟩

/-- C7 amended: on a length mismatch `select` returns (never raises) the
LengthMismatch IndexError value, leaving the mask untouched; when the
lengths match and the sequence is a string with integer flags, it returns
the subsequence of characters whose flag is at least 1 (`maskSelectGE1`,
the code's `>= 1` test) — which coincides with the spec's truthy
(nonzero) subsequence `maskSelectSpec` exactly when no flag is negative;
a negative flag is truthy but its element is dropped (see the
counterexample).  For list sequences the equal-length result is not in
general the selected subsequence at all (see the counterexample). -/
theorem claim7_select_lengths (x : PySeq) (matchesArg : List PyVal) :
    (matchesArg.length ≠ pyLen x →
      select x matchesArg =
        (matchesArg, .ok (.exnVal "Length of matches not length of x".data))) ∧
    (∀ (s : Str) (flags : List Int), x = .str s →
      matchesArg = flags.map PyVal.int →
      matchesArg.length = pyLen x →
      select x matchesArg =
        (flags.map PyVal.int,
          .ok (.seq (.str (maskSelectGE1 s flags)))) ∧
      ((∀ n ∈ flags, 0 ≤ n) →
        maskSelectGE1 s flags = maskSelectSpec s flags)) := by
  constructor
  · intro h
    unfold select
    rw [if_neg h]
  · rintro s flags rfl rfl hlen
    constructor
    · unfold select
      rw [if_pos hlen]
      have hconv := convertAll_of_ints (flags.map PyVal.int)
        (fun v hv => by
          obtain ⟨n, _, hn⟩ := List.mem_map.mp hv
          exact ⟨n, hn.symm⟩)
      simp only [hconv]
      have hslen : s.length = flags.length := by
        have h2 := hlen
        simp [pyLen] at h2
        omega
      rw [buildP_str_ints s flags hslen]
    · intro hnn
      clear hlen
      induction s generalizing flags with
      | nil =>
        cases flags with
        | nil => rfl
        | cons n ns => rfl
      | cons c rest ih =>
        cases flags with
        | nil => rfl
        | cons n ns =>
          have hn := hnn n (List.mem_cons_self n ns)
          have ih2 := ih ns (fun m hm => hnn m (List.mem_cons_of_mem _ hm))
          simp only [maskSelectGE1, maskSelectSpec]
          by_cases h1 : 1 ≤ n
          · rw [if_pos h1, if_pos (by omega), ih2]
          · rw [if_neg h1, if_neg (by omega), ih2]

/-- C7 amended, witness: `MaskSelect("abcd", [1,0,1,0])` yields `"ac"`,
with the integer mask handed back elementwise unchanged; on this
nonnegative mask the code's rule agrees with the spec's truthy rule. -/
theorem claim7_select_lengths_witness :
    (select (.str "abcd".data) [.int 1, .int 0, .int 1, .int 0] =
      ([.int 1, .int 0, .int 1, .int 0], .ok (.seq (.str "ac".data)))) ∧
    maskSelectGE1 "abcd".data [1, 0, 1, 0] =
      maskSelectSpec "abcd".data [1, 0, 1, 0] := by
  have h := (claim7_select_lengths (.str "abcd".data)
      [.int 1, .int 0, .int 1, .int 0]).2 "abcd".data [1, 0, 1, 0]
      rfl (by decide) (by decide)
  constructor
  · rw [h.1]
    decide
  · exact h.2 (by decide)

/-- C8 counterexample: `select` mutates the caller's mask: after
`select("a", ["1"])` the mask list holds the int 1 where the caller's
string `"1"` was — an observable modification of an argument, refuting the
claim that no operation modifies its arguments. -/
theorem claim8_mask_mutation_counterexample :
    (select (.str "a".data) [.str ['1']]).1 = [.int 1] ∧
    [PyVal.int 1] ≠ [PyVal.str ['1']] :=
  ⟨by decide, by decide⟩

/-- C8 amended: `select` overwrites each mask entry in place with its int
conversion when the lengths match (so non-int flags are observably
changed); a mask whose entries are already ints is left elementwise equal,
and on a length mismatch the mask is returned untouched.  The other
modelled operations are pure functions of their arguments by
construction. -/
theorem claim8_select_int_mask_preserved (x : PySeq)
    (matchesArg : List PyVal)
    (h : ∀ v ∈ matchesArg, ∃ n : Int, v = PyVal.int n) :
    (select x matchesArg).1 = matchesArg := by
  unfold select
  by_cases hlen : matchesArg.length = pyLen x
  · rw [if_pos hlen]
    have hconv := convertAll_of_ints matchesArg h
    simp only [hconv]
    cases hb : buildP (pyElems x) matchesArg with
    | error e => simp
    | ok p =>
      cases x with
      | str s => simp
      | list xs => simp
  · rw [if_neg hlen]

/-- C8 amended, witness: an all-int mask comes back elementwise equal. -/
theorem claim8_select_int_mask_preserved_witness :
    (select (.str "ab".data) [.int 1, .int 0]).1 = [.int 1, .int 0] :=
  claim8_select_int_mask_preserved (.str "ab".data) [.int 1, .int 0]
    (by simp)
